import Mathlib

/-!
Verification development for the SecureContract server
(collaborative contract review platform).

The definitions below are a shallow embedding of the server-side code:
the REST routers (`src/server/src/routes/contracts.ts`: contracts,
versions, permissions; the auth router), the Yjs socket handler
(`src/server/src/socket/index.ts`), and the in-process Yjs document
cache and its Redis write-back (`getYjsDoc` in
`src/server/src/services/yjs.ts`).

Database rows are modelled as lists of records; Prisma `findFirst` /
`findUnique` queries become `List.find?` with the query predicate;
route handlers become pure functions from a database state (plus the
request parameters) to an HTTP status code and the new database state.
-/

namespace SecureContract

/-- A stored user row (Prisma `User`). -/
structure User where
  id : String
  email : String
  name : String
  color : String
  passwordHash : String
deriving DecidableEq, Repr

/-- The grant roles of the Prisma `Role` enum. -/
inductive Role where
  | VIEWER
  | COMMENTER
  | EDITOR
  | ADMIN
deriving DecidableEq, Repr

/-- A permission grant row (Prisma `Permission`): one user, one contract, one role. -/
structure Permission where
  id : String
  contractId : String
  userId : String
  role : Role
deriving DecidableEq, Repr

/-- A contract (document) row (Prisma `Contract`). -/
structure Contract where
  id : String
  title : String
  ownerId : String
  s3Key : String
  version : Nat
  fileSize : Nat
deriving DecidableEq, Repr

/-- An archived version snapshot row (Prisma `ContractVersion`). -/
structure ContractVersion where
  contractId : String
  version : Nat
  s3Key : String
  changeNote : String
  createdById : String
deriving DecidableEq, Repr

/-- The relational state the routers read and write. -/
structure Db where
  users : List User
  contracts : List Contract
  permissions : List Permission
  contractVersions : List ContractVersion
deriving DecidableEq, Repr

/-- `prisma.contract.findUnique(where: id)`. -/
def findContract (db : Db) (cid : String) : Option Contract :=
  db.contracts.find? fun c => c.id == cid

/-- `prisma.permission.findUnique(where: contractId_userId)` — grant lookup for a
(document, user) pair. -/
def findPermissionFor (db : Db) (cid uid : String) : Option Permission :=
  db.permissions.find? fun p => p.contractId == cid && p.userId == uid

/-- The `EDITOR`/`ADMIN`-grant filter used by the new-version route. -/
def hasEditGrant (db : Db) (cid uid : String) : Bool :=
  db.permissions.any fun p =>
    p.contractId == cid && p.userId == uid
      && (p.role == Role.EDITOR || p.role == Role.ADMIN)

/-- The view-access test the REST layer uses (`GET /contracts/:id`):
the requester is the owner or holds some grant on the contract. -/
def hasViewAccess (db : Db) (cid uid : String) : Bool :=
  match findContract db cid with
  | none => false
  | some c => c.ownerId == uid || db.permissions.any fun p => p.contractId == cid && p.userId == uid

/-! ### Auth router (`routes/auth.ts`) — response bodies -/

/-- The user object shape the auth endpoints put in their JSON responses:
`id`, `email`, `name`, `color` and nothing else. -/
structure PublicUser where
  id : String
  email : String
  name : String
  color : String
deriving DecidableEq, Repr

/-- `GET /auth/me`: `const \x7b passwordHash, ...userWithoutPassword \x7d = req.user;
res.json(userWithoutPassword)` — the stored user minus its `passwordHash` field. -/
def meResponse (u : User) : PublicUser :=
  ⟨u.id, u.email, u.name, u.color⟩

/-- `POST /auth/login` success body user object:
`user: \x7b id: user.id, email: user.email, name: user.name, color: user.color \x7d`. -/
def loginResponseUser (u : User) : PublicUser :=
  ⟨u.id, u.email, u.name, u.color⟩

/-- `POST /auth/register`: the user row stored by `prisma.user.create`, holding
the bcrypt hash of the submitted password. -/
def registerStoredUser (id email name color hash : String) : User :=
  ⟨id, email, name, color, hash⟩

/-- `POST /auth/register` success body user object:
`user: \x7b id: user.id, email, name, color \x7d` — built from the request input
and the generated id/color, never from the hash. -/
def registerResponseUser (id email name color : String) : PublicUser :=
  ⟨id, email, name, color⟩

/-! ### Contracts router (`routes/contracts.ts`) -/

/-- Whitespace test for the JS `String.prototype.trim` model. -/
def isJsWhitespace (c : Char) : Bool :=
  c == ' ' || c == '\t' || c == '\n' || c == '\r'

/-- Executable model of JS `title.trim()`: strip leading and trailing
whitespace. -/
def trimStr (s : String) : String :=
  ⟨((s.data.dropWhile isJsWhitespace).reverse.dropWhile isJsWhitespace).reverse⟩

/-- `PATCH /contracts/:id` (rename). Returns the HTTP status and the database
afterwards. 400 on a blank title, 404 when the contract is absent, 403 unless
the requester is the owner; otherwise updates the title to `title.trim()`. -/
def renameContract (db : Db) (requesterId cid title : String) : Nat × Db :=
  if (trimStr title).length == 0 then (400, db)
  else
    match findContract db cid with
    | none => (404, db)
    | some contract =>
      if contract.ownerId != requesterId then (403, db)
      else
        (200, { db with contracts :=
          db.contracts.map fun c =>
            if c.id == cid then { c with title := trimStr title } else c })

/-- `DELETE /contracts/:id`. 404 when absent, 403 unless the requester is the
owner; otherwise removes the contract row (and its blob, not modelled here). -/
def deleteContract (db : Db) (requesterId cid : String) : Nat × Db :=
  match findContract db cid with
  | none => (404, db)
  | some contract =>
    if contract.ownerId != requesterId then (403, db)
    else (200, { db with contracts := db.contracts.filter fun c => c.id != cid })

/-! ### Versions router (`routes/versions.ts`) -/

/-- `POST /versions/:contractId` (upload new version). The requester must be
owner or hold an EDITOR/ADMIN grant (one `findFirst` with an OR filter, 403
otherwise). On success: archive the current `(version, s3Key)` as a
`ContractVersion` with `changeNote` defaulted to `Version N`, then point the
contract at the freshly uploaded key with `version + 1`. `newS3Key` stands for
the key the route generates for the uploaded blob; `hasFile` for `req.file`
being present. -/
def createVersion (db : Db) (requesterId cid : String) (changeNote : Option String)
    (newS3Key : String) (newFileSize : Nat) (hasFile : Bool) : Nat × Db :=
  if !hasFile then (400, db)
  else
    match db.contracts.find? fun c =>
        c.id == cid && (c.ownerId == requesterId || hasEditGrant db cid requesterId) with
    | none => (403, db)
    | some contract =>
      let archived : ContractVersion :=
        ⟨contract.id, contract.version, contract.s3Key,
          changeNote.getD ("Version " ++ toString contract.version), requesterId⟩
      let db1 := { db with contractVersions := db.contractVersions ++ [archived] }
      (200, { db1 with contracts :=
        db1.contracts.map fun c =>
          if c.id == cid then
            { c with s3Key := newS3Key, version := contract.version + 1,
                     fileSize := newFileSize }
          else c })

/-- `POST /versions/:contractId/:version/restore`. One `findFirst` requires the
contract to exist with `ownerId = requester` (403 otherwise); the target
snapshot must exist (404 otherwise). On success: archive the current
`(version, s3Key)` with a synthesized note, then set the contract to the target
snapshot's `s3Key` at `version + 1`. -/
def restoreVersion (db : Db) (requesterId cid : String) (versionNum : Nat) : Nat × Db :=
  match db.contracts.find? fun c => c.id == cid && c.ownerId == requesterId with
  | none => (403, db)
  | some contract =>
    match db.contractVersions.find? fun v =>
        v.contractId == cid && v.version == versionNum with
    | none => (404, db)
    | some historicalVersion =>
      let archived : ContractVersion :=
        ⟨contract.id, contract.version, contract.s3Key,
          "Before restoring to v" ++ toString versionNum, requesterId⟩
      let db1 := { db with contractVersions := db.contractVersions ++ [archived] }
      (200, { db1 with contracts :=
        db1.contracts.map fun c =>
          if c.id == cid then
            { c with s3Key := historicalVersion.s3Key, version := contract.version + 1 }
          else c })

/-! ### Permissions router (`routes/permissions.ts`) -/

/-- `POST /permissions/:contractId` (invite / grant). Only the owner passes the
`findFirst(id, ownerId)` check (403 otherwise). The invited user is looked up
by email (404 when unregistered); self-invites are 400. If a grant for the
(contract, user) pair already exists its role is updated in place (200);
otherwise a new grant row with the fresh id `newId` is created (201). -/
def invitePermission (db : Db) (requesterId cid email : String) (role : Role)
    (newId : String) : Nat × Db :=
  match db.contracts.find? fun c => c.id == cid && c.ownerId == requesterId with
  | none => (403, db)
  | some _ =>
    match db.users.find? fun u => u.email == email with
    | none => (404, db)
    | some invitedUser =>
      if invitedUser.id == requesterId then (400, db)
      else
        match findPermissionFor db cid invitedUser.id with
        | some existing =>
          (200, { db with permissions :=
            db.permissions.map fun p =>
              if p.id == existing.id then { p with role := role } else p })
        | none =>
          (201, { db with permissions :=
            db.permissions ++ [⟨newId, cid, invitedUser.id, role⟩] })

/-- `PATCH /permissions/:permissionId` (change a grant's role). 404 when the
grant is absent; 403 unless the requester owns the grant's contract (the
permission row's included `contract` relation; 404 if that row is missing,
which a consistent database never produces); otherwise the role is updated. -/
def updatePermissionRole (db : Db) (requesterId pid : String) (role : Role) : Nat × Db :=
  match db.permissions.find? fun p => p.id == pid with
  | none => (404, db)
  | some perm =>
    match findContract db perm.contractId with
    | none => (404, db)
    | some contract =>
      if contract.ownerId != requesterId then (403, db)
      else
        (200, { db with permissions :=
          db.permissions.map fun p =>
            if p.id == pid then { p with role := role } else p })

/-- The (contractId, userId) key of a grant row, unique in the Prisma schema
(`@@unique contractId_userId`). -/
def pairKey (p : Permission) : String × String :=
  (p.contractId, p.userId)

/-- At most one grant per (document, user) pair. -/
def grantsUnique (l : List Permission) : Prop :=
  (l.map pairKey).Nodup

/-! ### Yjs socket handler (`socket/index.ts`) -/

/-- The observable server state the socket handlers touch: room membership
(`socket.join`) and the sequence of updates merged into each contract's Y.Doc
(`Y.applyUpdate`), identified here by opaque numeric payloads. -/
structure YSocketState where
  members : List (String × String)
  merged : List (String × Nat)
deriving DecidableEq, Repr

/-- `socket.on(join-contract)`: the session joins the room for the contract and
is sent the current encoded state (`sync`). The handler performs no permission
lookup — the code reads `// Permission check could go here` — so the returned
flag (was the join accepted and the initial state delivered?) is always
`true`, for every requester. -/
def handleJoinContract (st : YSocketState) (sessionId cid : String) : YSocketState × Bool :=
  ({ st with members := st.members ++ [(cid, sessionId)] }, true)

/-- `socket.on(update)`: `Y.applyUpdate(doc, update)` then
`socket.to(room).emit(update)`. No permission gate: the delta is merged into
the shared document and rebroadcast for every joined sender. Returns the new
state and the list of member sessions the update is emitted to (everyone in
the contract's room except the sender). -/
def handleUpdate (st : YSocketState) (senderId cid : String) (delta : Nat) :
    YSocketState × List String :=
  ({ st with merged := st.merged ++ [(cid, delta)] },
   (st.members.filter fun m => m.1 == cid && m.2 != senderId).map fun m => m.2)

/-! ### Yjs document cache (`services/yjs.ts`, `getYjsDoc`)

`getYjsDoc` runs: check the module-level `docs` map; on a miss construct a
fresh `Y.Doc`, `await redis.getBuffer(...)` (the durable-store read — the one
suspension point before registration), then on resumption apply the stored
update, register the instance in `docs`, and return it. The embedding splits
the function at that `await` into phase A (map check, construction, store-read
issue) and phase B (registration, return), and runs two calls for the same id
under an explicit interleaving schedule. -/

/-- The cache-relevant process state: the `docs` map (document id to live
instance, instances numbered in construction order), the next fresh instance
number, and counters of constructions and durable-store reads. -/
structure CacheState where
  docs : List (String × Nat)
  nextInstance : Nat
  constructed : Nat
  storeReads : Nat
deriving DecidableEq, Repr

/-- Where one `getYjsDoc(cid)` call currently stands: not yet run, parked at
the `await` of the store read holding its freshly constructed instance, or
returned with its result. -/
inductive TaskPhase where
  | ready
  | awaitingStore (inst : Nat)
  | returned (inst : Nat)
deriving DecidableEq, Repr

/-- `docs.get` on the modelled map. -/
def lookupDoc (docs : List (String × Nat)) (cid : String) : Option Nat :=
  (docs.find? fun e => e.1 == cid).map fun e => e.2

/-- `docs.set`: overwrite the entry for the id, or append a new one. -/
def mapSet (docs : List (String × Nat)) (cid : String) (inst : Nat) : List (String × Nat) :=
  if (docs.find? fun e => e.1 == cid).isSome then
    docs.map fun e => if e.1 == cid then (cid, inst) else e
  else docs ++ [(cid, inst)]

/-- One scheduler step of a `getYjsDoc(cid)` call. From `ready`: a map hit
returns the cached instance at once; a miss constructs a fresh `Y.Doc` and
issues the store read, parking at the `await`. From `awaitingStore`: the read
has resolved; register the instance and return it. `returned` is final. -/
def stepGetYjsDoc (st : CacheState) (cid : String) : TaskPhase → CacheState × TaskPhase
  | .ready =>
    match lookupDoc st.docs cid with
    | some inst => (st, .returned inst)
    | none =>
      (⟨st.docs, st.nextInstance + 1, st.constructed + 1, st.storeReads + 1⟩,
       .awaitingStore st.nextInstance)
  | .awaitingStore inst => ({ st with docs := mapSet st.docs cid inst }, .returned inst)
  | .returned inst => (st, .returned inst)

/-- Two concurrent `getYjsDoc` calls for the same id plus the shared state. -/
structure TwoCalls where
  cache : CacheState
  phase0 : TaskPhase
  phase1 : TaskPhase
deriving DecidableEq, Repr

/-- Advance the selected call (`false` = first caller) by one step. -/
def stepCall (cid : String) (s : TwoCalls) (which : Bool) : TwoCalls :=
  if which then
    let r := stepGetYjsDoc s.cache cid s.phase1
    ⟨r.1, s.phase0, r.2⟩
  else
    let r := stepGetYjsDoc s.cache cid s.phase0
    ⟨r.1, r.2, s.phase1⟩

/-- Run an interleaving schedule of the two calls. -/
def runSchedule (cid : String) (sched : List Bool) (s : TwoCalls) : TwoCalls :=
  sched.foldl (stepCall cid) s

/-- Both calls pending against an empty cache: the document id has never been
loaded in this process. -/
def freshTwoCalls : TwoCalls :=
  ⟨⟨[], 0, 0, 0⟩, .ready, .ready⟩

/-! ### Redis write-back (`services/yjs.ts`, the `doc.on(update)` handler)

Every update merged into a cached `Y.Doc` fires the handler, which encodes the
full state and immediately starts its own `redis.set` — there is no pending
flag, queue, or debounce consulted before starting the write. -/

/-- Write-back bookkeeping for one document id: `redis.set` calls in flight,
totals of writes started and merges applied, and the high-water mark of
simultaneously outstanding writes. -/
structure PersistState where
  inFlight : Nat
  writesStarted : Nat
  mergesApplied : Nat
  maxConcurrentWrites : Nat
deriving DecidableEq, Repr

/-- What can happen to one document id's write-back state: an update event
fires the save handler, or one outstanding `redis.set` completes. -/
inductive PersistEvent where
  | mergeUpdate
  | storeAck
deriving DecidableEq, Repr

/-- One event. `mergeUpdate` unconditionally starts a new write, whatever is
already in flight; `storeAck` retires one outstanding write. -/
def persistStep (st : PersistState) : PersistEvent → PersistState
  | .mergeUpdate =>
    ⟨st.inFlight + 1, st.writesStarted + 1, st.mergesApplied + 1,
      max st.maxConcurrentWrites (st.inFlight + 1)⟩
  | .storeAck => { st with inFlight := st.inFlight - 1 }

/-- Run a sequence of events from the idle state. -/
def persistRun (evts : List PersistEvent) : PersistState :=
  evts.foldl persistStep ⟨0, 0, 0, 0⟩

/-! ### Concrete sample data -/

/-- A stored user: Alice, owner of the sample contract. -/
def alice : User := ⟨"u-alice", "alice@example.com", "Alice", "#112233", "hashA"⟩

/-- A stored user: Bob, a grantee on the sample contract. -/
def bob : User := ⟨"u-bob", "bob@example.com", "Bob", "#445566", "hashB"⟩

/-- A stored user: Carol, initially unrelated to the sample contract. -/
def carol : User := ⟨"u-carol", "carol@example.com", "Carol", "#778899", "hashC"⟩

/-- A sample contract owned by Alice, at version 1. -/
def contractOne : Contract := ⟨"c1", "NDA", "u-alice", "contracts/c1-v1.pdf", 1, 100⟩

/-- Database where Bob holds only a VIEWER grant on Alice's contract and Carol
holds nothing. -/
def viewerGrantDb : Db :=
  ⟨[alice, bob, carol], [contractOne], [⟨"p1", "c1", "u-bob", Role.VIEWER⟩], []⟩

/-- Database where Bob holds an ADMIN grant on Alice's contract and Carol a
VIEWER grant. -/
def adminGrantDb : Db :=
  ⟨[alice, bob, carol], [contractOne],
    [⟨"p1", "c1", "u-bob", Role.ADMIN⟩, ⟨"p2", "c1", "u-carol", Role.VIEWER⟩], []⟩

/-- Database holding a version-1 snapshot of the sample contract, which itself
stands at version 2: the shape reached after one `createVersion`. -/
def versionedDb : Db :=
  ⟨[alice, bob, carol],
    [⟨"c1", "NDA", "u-alice", "contracts/c1/v2.pdf", 2, 120⟩],
    [⟨"p1", "c1", "u-bob", Role.EDITOR⟩],
    [⟨"c1", 1, "contracts/c1-v1.pdf", "Version 1", "u-alice"⟩]⟩

/-- Socket room for the sample contract with Alice's and Bob's sessions joined. -/
def roomState : YSocketState :=
  ⟨[("c1", "sess-alice"), ("c1", "sess-bob")], []⟩

/-! ## Theorems -/

/-- Helper: if the first contract with a given id is owned by `rid`, the
combined id-and-owner `findFirst` returns that same contract. -/
theorem find_owner_of_find_id (l : List Contract) (cid rid : String) (c : Contract)
    (h : l.find? (fun x => x.id == cid) = some c) (hown : c.ownerId = rid) :
    l.find? (fun x => x.id == cid && x.ownerId == rid) = some c := by
  induction l with
  | nil => simp at h
  | cons a t ih =>
    cases hb : (a.id == cid) with
    | true =>
      simp only [List.find?_cons, hb] at h
      simp only [Option.some.injEq] at h
      subst h
      simp [List.find?_cons, hb, hown]
    | false =>
      simp only [List.find?_cons, hb] at h
      simpa [List.find?_cons, hb] using ih h

/-- C10: the `/auth/me`, login, and register response bodies are functions of
the stored user's non-hash fields only: two stored users differing only in
`passwordHash` produce identical response user objects, and the register
response equals the hash-free projection of the row it stores. -/
theorem auth_responses_hash_free (u1 u2 : User)
    (hid : u1.id = u2.id) (hem : u1.email = u2.email)
    (hnm : u1.name = u2.name) (hcl : u1.color = u2.color) :
    meResponse u1 = meResponse u2 ∧ loginResponseUser u1 = loginResponseUser u2 ∧
    (∀ id email name color hash,
      registerResponseUser id email name color =
        meResponse (registerStoredUser id email name color hash)) := by
  refine ⟨?_, ?_, ?_⟩
  · simp [meResponse, hid, hem, hnm, hcl]
  · simp [loginResponseUser, hid, hem, hnm, hcl]
  · intro id email name color hash
    rfl

/-- Witness for C10 at two concrete users differing only in their hash. -/
theorem auth_responses_hash_free_witness :
    meResponse ⟨"u1", "a@b.c", "A", "#000000", "h1"⟩ =
      meResponse ⟨"u1", "a@b.c", "A", "#000000", "h2"⟩ ∧
    loginResponseUser ⟨"u1", "a@b.c", "A", "#000000", "h1"⟩ =
      loginResponseUser ⟨"u1", "a@b.c", "A", "#000000", "h2"⟩ ∧
    registerResponseUser "u1" "a@b.c" "A" "#000000" =
      meResponse (registerStoredUser "u1" "a@b.c" "A" "#000000" "h1") :=
  have h := auth_responses_hash_free ⟨"u1", "a@b.c", "A", "#000000", "h1"⟩
    ⟨"u1", "a@b.c", "A", "#000000", "h2"⟩ rfl rfl rfl rfl
  ⟨h.1, h.2.1, h.2.2 "u1" "a@b.c" "A" "#000000" "h1"⟩

/-- C1 (code bug): Bob holds only a VIEWER grant (no edit grant), yet the
socket update handler merges his delta into the shared document and emits it
to Alice's session — no permission check is performed on the update path. -/
theorem viewer_edit_delta_merged_and_broadcast :
    hasEditGrant viewerGrantDb "c1" "u-bob" = false ∧
    (handleUpdate roomState "sess-bob" "c1" 42).1.merged = [("c1", 42)] ∧
    (handleUpdate roomState "sess-bob" "c1" 42).2 = ["sess-alice"] := by
  decide

/-- C2 (code bug): Carol is neither owner nor grantee of the contract, yet the
socket join handler registers her session in the room and reports the initial
state as delivered — no VIEW permission check is performed on join. -/
theorem ungranted_join_accepted :
    hasViewAccess viewerGrantDb "c1" "u-carol" = false ∧
    (handleJoinContract ⟨[], []⟩ "sess-carol" "c1").2 = true ∧
    (handleJoinContract ⟨[], []⟩ "sess-carol" "c1").1.members = [("c1", "sess-carol")] := by
  decide

/-- C4 counterexample: starting from the idle write-back state, a second merge
arriving while the first write is still in flight starts a second concurrent
`redis.set` for the same id — two writes are simultaneously outstanding. -/
theorem second_merge_starts_concurrent_write :
    (persistRun [.mergeUpdate, .mergeUpdate]).inFlight = 2 ∧
    (persistRun [.mergeUpdate, .mergeUpdate]).maxConcurrentWrites = 2 := by
  decide

/-- C4 amended: write-backs are not coalesced — every merge starts its own
durable write (writes started always equals merges applied, for every event
sequence), and in particular a merge during an in-flight write yields two
concurrently outstanding writes. -/
theorem every_merge_starts_own_write :
    (∀ evts, (persistRun evts).writesStarted = (persistRun evts).mergesApplied) ∧
    (persistRun [.mergeUpdate, .mergeUpdate]).inFlight = 2 := by
  constructor
  · have key : ∀ (evts : List PersistEvent) (st : PersistState),
        st.writesStarted = st.mergesApplied →
        (evts.foldl persistStep st).writesStarted = (evts.foldl persistStep st).mergesApplied := by
      intro evts
      induction evts with
      | nil => intro st h; exact h
      | cons e rest ih =>
        intro st h
        apply ih
        cases e with
        | mergeUpdate => simp [persistStep, h]
        | storeAck => simp [persistStep, h]
    intro evts
    exact key evts ⟨0, 0, 0, 0⟩ rfl
  · decide

/-- C3 counterexample: two first-accesses of document id `c1` interleaved at
the store-read `await` (both map checks before either registration) each
construct a `Y.Doc` and each read the durable store, and the two callers
receive distinct instances — not the single guarded construction claimed. -/
theorem concurrent_first_access_double_construct :
    (runSchedule "c1" [false, true, false, true] freshTwoCalls).cache.constructed = 2 ∧
    (runSchedule "c1" [false, true, false, true] freshTwoCalls).cache.storeReads = 2 ∧
    (runSchedule "c1" [false, true, false, true] freshTwoCalls).phase0 ≠
      (runSchedule "c1" [false, true, false, true] freshTwoCalls).phase1 := by
  decide

/-- C3 amended: for every document id, a first access that completes its
registration before the second access begins yields exactly one constructed
instance, one durable-store read, and the same instance for both callers;
but two first-accesses interleaved across the store-read suspension each
construct an instance and each read the store, and the callers end with
distinct instances. -/
theorem first_access_single_instance_unless_interleaved (cid : String) :
    ((runSchedule cid [false, false, true] freshTwoCalls).cache.constructed = 1 ∧
     (runSchedule cid [false, false, true] freshTwoCalls).cache.storeReads = 1 ∧
     (runSchedule cid [false, false, true] freshTwoCalls).phase0 = TaskPhase.returned 0 ∧
     (runSchedule cid [false, false, true] freshTwoCalls).phase1 = TaskPhase.returned 0) ∧
    ((runSchedule cid [false, true, false, true] freshTwoCalls).cache.constructed = 2 ∧
     (runSchedule cid [false, true, false, true] freshTwoCalls).cache.storeReads = 2 ∧
     (runSchedule cid [false, true, false, true] freshTwoCalls).phase0 ≠
       (runSchedule cid [false, true, false, true] freshTwoCalls).phase1) := by
  simp [runSchedule, stepCall, stepGetYjsDoc, lookupDoc, mapSet, freshTwoCalls,
    List.find?_cons]

/-- C5 counterexample: Bob holds an ADMIN grant on Alice's contract and is not
the owner, yet both grant management operations deny him: inviting Dave is
rejected with 403 and updating Carol's existing grant is rejected with 403,
each leaving the database unchanged. -/
theorem admin_grantee_denied_manage_permissions :
    (adminGrantDb.permissions.any fun p =>
      p.contractId == "c1" && p.userId == "u-bob" && p.role == Role.ADMIN) = true ∧
    contractOne.ownerId ≠ "u-bob" ∧
    invitePermission adminGrantDb "u-bob" "c1" "carol@example.com" Role.EDITOR "p9" =
      (403, adminGrantDb) ∧
    updatePermissionRole adminGrantDb "u-bob" "p2" Role.EDITOR = (403, adminGrantDb) := by
  decide

/-- C5 amended: grant management is owner-only. For every requester who does
not own the contract — whatever grant, including ADMIN, they may hold — the
grant-creation route and the grant-update route both answer 403 and leave the
database unchanged. -/
theorem manage_permissions_owner_only :
    (∀ (db : Db) (rid cid email : String) (role : Role) (newId : String),
      (∀ c ∈ db.contracts, c.id = cid → c.ownerId ≠ rid) →
      invitePermission db rid cid email role newId = (403, db)) ∧
    (∀ (db : Db) (rid pid : String) (role : Role) (perm : Permission) (contract : Contract),
      db.permissions.find? (fun p => p.id == pid) = some perm →
      findContract db perm.contractId = some contract →
      contract.ownerId ≠ rid →
      updatePermissionRole db rid pid role = (403, db)) := by
  constructor
  · intro db rid cid email role newId h
    have hfind : db.contracts.find? (fun c => c.id == cid && c.ownerId == rid) = none := by
      rw [List.find?_eq_none]
      intro c hc
      simp only [Bool.and_eq_true, beq_iff_eq, not_and]
      exact fun hid => h c hc hid
    simp [invitePermission, hfind]
  · intro db rid pid role perm contract hperm hcontract hown
    simp [updatePermissionRole, hperm, hcontract, hown]

/-- Witness for the amended C5 at Bob, the non-owner ADMIN grantee. -/
theorem manage_permissions_owner_only_witness :
    invitePermission adminGrantDb "u-bob" "c1" "dave@example.com" Role.VIEWER "p9" =
      (403, adminGrantDb) ∧
    updatePermissionRole adminGrantDb "u-bob" "p2" Role.VIEWER = (403, adminGrantDb) :=
  ⟨manage_permissions_owner_only.1 adminGrantDb "u-bob" "c1" "dave@example.com" Role.VIEWER
      "p9" (by decide),
   manage_permissions_owner_only.2 adminGrantDb "u-bob" "p2" Role.VIEWER
      ⟨"p2", "c1", "u-carol", Role.VIEWER⟩ contractOne (by decide) (by decide) (by decide)⟩

/-- C6: rename, delete, and version restore are owner-only regardless of
grant role — for every database holding the document, a requester who does not
own it gets 403 from all three with the database (title, blob key, version)
unchanged, and for the owner all three checks pass with status 200. -/
theorem owner_only_rename_delete_restore :
    (∀ (db : Db) (rid cid title : String) (vn : Nat) (contract : Contract),
      findContract db cid = some contract →
      (∀ c ∈ db.contracts, c.id = cid → c.ownerId ≠ rid) →
      (trimStr title).length ≠ 0 →
      renameContract db rid cid title = (403, db) ∧
      deleteContract db rid cid = (403, db) ∧
      restoreVersion db rid cid vn = (403, db)) ∧
    (∀ (db : Db) (rid cid title : String) (vn : Nat) (contract : Contract)
        (hv : ContractVersion),
      findContract db cid = some contract →
      contract.ownerId = rid →
      (trimStr title).length ≠ 0 →
      db.contractVersions.find? (fun v => v.contractId == cid && v.version == vn) = some hv →
      (renameContract db rid cid title).1 = 200 ∧
      (deleteContract db rid cid).1 = 200 ∧
      (restoreVersion db rid cid vn).1 = 200) := by
  constructor
  · intro db rid cid title vn contract hfind hall htitle
    have hmem : contract ∈ db.contracts := List.mem_of_find?_eq_some hfind
    have hcid : contract.id = cid := by
      have := List.find?_some hfind
      simpa using this
    have hown : contract.ownerId ≠ rid := hall contract hmem hcid
    have hcomb : db.contracts.find? (fun c => c.id == cid && c.ownerId == rid) = none := by
      rw [List.find?_eq_none]
      intro c hc
      simp only [Bool.and_eq_true, beq_iff_eq, not_and]
      exact fun hid => hall c hc hid
    refine ⟨?_, ?_, ?_⟩
    · simp [renameContract, hfind, htitle, hown]
    · simp [deleteContract, findContract] at hfind ⊢
      simp [hfind, hown]
    · simp [restoreVersion, hcomb]
  · intro db rid cid title vn contract hv hfind hown htitle htarget
    have hcomb := find_owner_of_find_id db.contracts cid rid contract hfind hown
    refine ⟨?_, ?_, ?_⟩
    · simp [renameContract, hfind, htitle, hown]
    · simp [deleteContract, findContract] at hfind ⊢
      simp [hfind, hown]
    · simp [restoreVersion, hcomb, htarget]

/-- Witness for C6: Bob (VIEWER grantee) is denied all three operations on
Alice's contract; Alice, the owner, passes all three. -/
theorem owner_only_rename_delete_restore_witness :
    (renameContract viewerGrantDb "u-bob" "c1" "New title" = (403, viewerGrantDb) ∧
     deleteContract viewerGrantDb "u-bob" "c1" = (403, viewerGrantDb) ∧
     restoreVersion viewerGrantDb "u-bob" "c1" 1 = (403, viewerGrantDb)) ∧
    ((renameContract versionedDb "u-alice" "c1" "New title").1 = 200 ∧
     (deleteContract versionedDb "u-alice" "c1").1 = 200 ∧
     (restoreVersion versionedDb "u-alice" "c1" 1).1 = 200) :=
  ⟨owner_only_rename_delete_restore.1 viewerGrantDb "u-bob" "c1" "New title" 1 contractOne
      (by decide) (by decide) (by decide),
   owner_only_rename_delete_restore.2 versionedDb "u-alice" "c1" "New title" 1
      ⟨"c1", "NDA", "u-alice", "contracts/c1/v2.pdf", 2, 120⟩
      ⟨"c1", 1, "contracts/c1-v1.pdf", "Version 1", "u-alice"⟩
      (by decide) (by decide) (by decide) (by decide)⟩

/-- C7: a successful new-version upload on a document at version N with blob
key B archives exactly the replaced state — the snapshot appended to the
version table records (N, B) — and the document itself moves to version N + 1
pointing at the freshly uploaded key. -/
theorem create_version_archives_replaced_state
    (db : Db) (rid cid : String) (note : Option String) (key : String) (size : Nat)
    (contract : Contract)
    (hfind : db.contracts.find? (fun c =>
        c.id == cid && (c.ownerId == rid || hasEditGrant db cid rid)) = some contract) :
    (createVersion db rid cid note key size true).1 = 200 ∧
    (createVersion db rid cid note key size true).2.contractVersions =
      db.contractVersions ++
        [⟨contract.id, contract.version, contract.s3Key,
          note.getD ("Version " ++ toString contract.version), rid⟩] ∧
    (∀ c ∈ (createVersion db rid cid note key size true).2.contracts,
      c.id = cid → c.version = contract.version + 1 ∧ c.s3Key = key) := by
  refine ⟨?_, ?_, ?_⟩
  · simp [createVersion, hfind]
  · simp [createVersion, hfind]
  · intro c hc hcid
    simp only [createVersion, Bool.not_true, Bool.false_eq_true, if_false, hfind,
      List.mem_map] at hc
    obtain ⟨a, _, rfl⟩ := hc
    by_cases ha : (a.id == cid) = true
    · simp [ha]
    · simp only [ha, if_false] at hcid ⊢
      exact absurd (beq_iff_eq.mpr hcid) (by simpa using ha)

/-- Witness for C7: Bob, an EDITOR grantee, uploads a new version of the
contract standing at version 2; the snapshot records version 2 with the old
key and the contract moves to version 3 with the new key. -/
theorem create_version_archives_replaced_state_witness :
    (createVersion versionedDb "u-bob" "c1" none "contracts/c1/v3.pdf" 130 true).1 = 200 ∧
    (createVersion versionedDb "u-bob" "c1" none "contracts/c1/v3.pdf" 130 true).2.contractVersions =
      versionedDb.contractVersions ++
        [⟨"c1", 2, "contracts/c1/v2.pdf", "Version 2", "u-bob"⟩] :=
  have h := create_version_archives_replaced_state versionedDb "u-bob" "c1" none
    "contracts/c1/v3.pdf" 130 ⟨"c1", "NDA", "u-alice", "contracts/c1/v2.pdf", 2, 120⟩
    (by decide)
  ⟨h.1, h.2.1⟩

/-- C8: a successful restore targeting snapshot V on a document at version N
first archives the pre-restore state (N and its blob key, with the synthesized
"Before restoring" note), then moves the document to version N + 1 — strictly
greater than N, never a rewind — pointing at snapshot V's blob key. -/
theorem restore_version_archives_then_advances
    (db : Db) (rid cid : String) (vn : Nat) (contract : Contract) (hv : ContractVersion)
    (hfind : db.contracts.find? (fun c => c.id == cid && c.ownerId == rid) = some contract)
    (htarget : db.contractVersions.find? (fun v =>
        v.contractId == cid && v.version == vn) = some hv) :
    (restoreVersion db rid cid vn).1 = 200 ∧
    (restoreVersion db rid cid vn).2.contractVersions =
      db.contractVersions ++
        [⟨contract.id, contract.version, contract.s3Key,
          "Before restoring to v" ++ toString vn, rid⟩] ∧
    (∀ c ∈ (restoreVersion db rid cid vn).2.contracts,
      c.id = cid →
        c.version = contract.version + 1 ∧ contract.version < c.version ∧
        c.s3Key = hv.s3Key) := by
  refine ⟨?_, ?_, ?_⟩
  · simp [restoreVersion, hfind, htarget]
  · simp [restoreVersion, hfind, htarget]
  · intro c hc hcid
    simp only [restoreVersion, hfind, htarget, List.mem_map] at hc
    obtain ⟨a, _, rfl⟩ := hc
    by_cases ha : (a.id == cid) = true
    · simp [ha]
    · simp only [ha, if_false] at hcid ⊢
      exact absurd (beq_iff_eq.mpr hcid) (by simpa using ha)

/-- Witness for C8: Alice restores her contract (at version 2) to version 1;
the pre-restore state is archived as version 2 and the contract moves to
version 3 with version 1's blob key. -/
theorem restore_version_archives_then_advances_witness :
    (restoreVersion versionedDb "u-alice" "c1" 1).1 = 200 ∧
    (restoreVersion versionedDb "u-alice" "c1" 1).2.contractVersions =
      versionedDb.contractVersions ++
        [⟨"c1", 2, "contracts/c1/v2.pdf", "Before restoring to v1", "u-alice"⟩] :=
  have h := restore_version_archives_then_advances versionedDb "u-alice" "c1" 1
    ⟨"c1", "NDA", "u-alice", "contracts/c1/v2.pdf", 2, 120⟩
    ⟨"c1", 1, "contracts/c1-v1.pdf", "Version 1", "u-alice"⟩ (by decide) (by decide)
  ⟨h.1, h.2.1⟩

/-- C9: at most one grant per (document, user) pair. The invite route
preserves (contractId, userId)-uniqueness of the grant table in every branch,
and when the invited user already holds a grant on the contract the route
answers 200 with the table's length unchanged — the existing grant's role is
overwritten in place, no duplicate row and no error. -/
theorem regrant_updates_in_place :
    (∀ (db : Db) (rid cid email : String) (role : Role) (newId : String),
      grantsUnique db.permissions →
      grantsUnique ((invitePermission db rid cid email role newId).2).permissions) ∧
    (∀ (db : Db) (rid cid email : String) (role : Role) (newId : String)
        (c : Contract) (invited : User) (existing : Permission),
      db.contracts.find? (fun x => x.id == cid && x.ownerId == rid) = some c →
      db.users.find? (fun u => u.email == email) = some invited →
      invited.id ≠ rid →
      findPermissionFor db cid invited.id = some existing →
      (invitePermission db rid cid email role newId).1 = 200 ∧
      ((invitePermission db rid cid email role newId).2).permissions.length =
        db.permissions.length ∧
      (∀ p ∈ ((invitePermission db rid cid email role newId).2).permissions,
        p.id = existing.id → p.role = role)) := by
  constructor
  · intro db rid cid email role newId h
    cases hc : db.contracts.find? (fun c => c.id == cid && c.ownerId == rid) with
    | none => simpa [invitePermission, hc] using h
    | some c =>
      cases hu : db.users.find? (fun u => u.email == email) with
      | none => simpa [invitePermission, hc, hu] using h
      | some invited =>
        cases hs : (invited.id == rid) with
        | true => simpa [invitePermission, hc, hu, hs] using h
        | false =>
          cases hp : findPermissionFor db cid invited.id with
          | some existing =>
            have hmap :
                ((db.permissions.map fun p =>
                    if p.id == existing.id then { p with role := role } else p).map pairKey)
                  = db.permissions.map pairKey := by
              rw [List.map_map]
              apply List.map_congr_left
              intro p _
              by_cases hpe : (p.id == existing.id) = true <;>
                simp [Function.comp, pairKey, hpe]
            simp only [invitePermission, hc, hu, hs, hp, grantsUnique, Bool.false_eq_true, if_false]
            rw [hmap]
            exact h
          | none =>
            have hnotin : (cid, invited.id) ∉ db.permissions.map pairKey := by
              intro hmem
              obtain ⟨p, hpmem, hkey⟩ := List.mem_map.mp hmem
              have hno := List.find?_eq_none.mp hp p hpmem
              simp only [pairKey, Prod.mk.injEq] at hkey
              simp only [Bool.and_eq_true, beq_iff_eq, not_and] at hno
              exact hno hkey.1 hkey.2
            simp only [invitePermission, hc, hu, hs, hp, grantsUnique, Bool.false_eq_true, if_false, List.map_append]
            rw [List.nodup_append]
            refine ⟨h, by simp, ?_⟩
            intro a ha hb
            simp only [List.map_cons, List.map_nil, List.mem_singleton] at hb
            subst hb
            exact hnotin ha
  · intro db rid cid email role newId c invited existing hc hu hself hp
    have hs : (invited.id == rid) = false := beq_eq_false_iff_ne.mpr hself
    refine ⟨?_, ?_, ?_⟩
    · simp [invitePermission, hc, hu, hs, hp]
    · simp [invitePermission, hc, hu, hs, hp]
    · intro p hmem hpid
      simp only [invitePermission, hc, hu, hs, hp, Bool.false_eq_true, if_false, List.mem_map] at hmem
      obtain ⟨a, _, rfl⟩ := hmem
      by_cases ha : (a.id == existing.id) = true
      · simp [ha]
      · simp only [ha, if_false] at hpid ⊢
        exact absurd (beq_iff_eq.mpr hpid) (by simpa using ha)

/-- Witness for C9: Alice re-grants Carol (already a VIEWER) as EDITOR —
the route answers 200, the grant table keeps its two rows and stays unique per
(document, user) pair. -/
theorem regrant_updates_in_place_witness :
    grantsUnique ((invitePermission adminGrantDb "u-alice" "c1" "carol@example.com"
      Role.EDITOR "p9").2).permissions ∧
    (invitePermission adminGrantDb "u-alice" "c1" "carol@example.com" Role.EDITOR "p9").1
      = 200 ∧
    ((invitePermission adminGrantDb "u-alice" "c1" "carol@example.com" Role.EDITOR
      "p9").2).permissions.length = adminGrantDb.permissions.length :=
  have h2 := regrant_updates_in_place.2 adminGrantDb "u-alice" "c1" "carol@example.com"
    Role.EDITOR "p9" contractOne carol ⟨"p2", "c1", "u-carol", Role.VIEWER⟩
    (by decide) (by decide) (by decide) (by decide)
  ⟨regrant_updates_in_place.1 adminGrantDb "u-alice" "c1" "carol@example.com" Role.EDITOR
      "p9" (by unfold grantsUnique; decide),
   h2.1, h2.2.1⟩

end SecureContract
